import Mathlib

/-!
Verification of the ear-clipping polygon triangulator (`src/main.cpp`).

The C++ code works on `Vec2f` (a pair of `float`s) and `std::vector`.
The embedding models coordinates as exact rationals (`ℚ`): the program
only adds, subtracts, multiplies and compares coordinates, so every
claim under scrutiny is about the signs of exactly those arithmetic
expressions, which `ℚ` represents without rounding.  Vectors become
`List`s; the in-place mutation of `triangulate` is modelled by also
returning the final (mutated) vertex sequence.
-/

namespace EarClipping

/-- `struct Vec2f \x7b float x, y; \x7d` with coordinates taken exactly. -/
structure Vec2f where
  x : ℚ
  y : ℚ
deriving DecidableEq, Repr

/-- The zero vector, used as the (never-reached) default for in-range list reads. -/
def zeroVec : Vec2f := ⟨0, 0⟩

/-- `operator+(vec1, vec2)`: componentwise addition. -/
def vadd (vec1 vec2 : Vec2f) : Vec2f := ⟨vec1.x + vec2.x, vec1.y + vec2.y⟩

/-- `operator-(vec1, vec2)`: componentwise subtraction. -/
def vsub (vec1 vec2 : Vec2f) : Vec2f := ⟨vec1.x - vec2.x, vec1.y - vec2.y⟩

/-- `crossProduct(a, b) = a.x * b.y - a.y * b.x`. -/
def crossProduct (a b : Vec2f) : ℚ := a.x * b.y - a.y * b.x

/-- One term of the shoelace loop body in `isClockwise`:
`(next.x - current.x) * (next.y + current.y)` with `current = vertices[i]`,
`next = vertices[(i + 1) % vertices.size()]`. -/
def shoelaceTerm (vertices : List Vec2f) (i : Nat) : ℚ :=
  let current := vertices.getD i zeroVec
  let next := vertices.getD ((i + 1) % vertices.length) zeroVec
  (next.x - current.x) * (next.y + current.y)

/-- The accumulated `sum` of the loop in `isClockwise`. -/
def shoelaceSum (vertices : List Vec2f) : ℚ :=
  ((List.range vertices.length).map (shoelaceTerm vertices)).sum

/-- `isClockwise(vertices)`: shoelace sum strictly positive. -/
def isClockwise (vertices : List Vec2f) : Bool :=
  decide (0 < shoelaceSum vertices)

/-- `isConvex(prev, current, next)`. -/
def isConvex (prev current next : Vec2f) : Bool :=
  let prevEdge := vsub prev current
  let nextEdge := vsub next current
  decide (0 < crossProduct prevEdge nextEdge)

/-- `isPointInsideTriangle(point, prev, current, next)`. -/
def isPointInsideTriangle (point prev current next : Vec2f) : Bool :=
  let prevToCurrent := vsub current prev
  let currentToNext := vsub next current
  let nextToPrev := vsub prev next
  let prevToPoint := vsub point prev
  let currentToPoint := vsub point current
  let nextToPoint := vsub point next
  let alpha := crossProduct prevToCurrent prevToPoint
  let beta := crossProduct currentToNext currentToPoint
  let gamma := crossProduct nextToPrev nextToPoint
  if 0 < alpha ∨ 0 < beta ∨ 0 < gamma then false else true

/-- `isEar(vertices, prevIndex, currentIndex, nextIndex)`: no vertex at an
index other than the three given ones lies inside the candidate triangle. -/
def isEar (vertices : List Vec2f) (prevIndex currentIndex nextIndex : Nat) : Bool :=
  let prev := vertices.getD prevIndex zeroVec
  let current := vertices.getD currentIndex zeroVec
  let next := vertices.getD nextIndex zeroVec
  (List.range vertices.length).all fun j =>
    if j ≠ prevIndex ∧ j ≠ currentIndex ∧ j ≠ nextIndex then
      !isPointInsideTriangle (vertices.getD j zeroVec) prev current next
    else
      true

/-- `std::array<Vec2f, 3>`: one output triangle, ordered (prev, current, next). -/
structure Triangle where
  p1 : Vec2f
  p2 : Vec2f
  p3 : Vec2f
deriving DecidableEq, Repr

/-- The scan of the `for` loop inside `triangulate`: the first index `i`
(in increasing order) whose vertex is convex and an ear, with
`prevIndex = (i - 1 + n) % n` and `nextIndex = (i + 1) % n`. -/
def findEarIndex (vertices : List Vec2f) : Option Nat :=
  (List.range vertices.length).find? fun i =>
    let n := vertices.length
    let prevIndex := (i + n - 1) % n
    let nextIndex := (i + 1) % n
    isConvex (vertices.getD prevIndex zeroVec) (vertices.getD i zeroVec)
        (vertices.getD nextIndex zeroVec)
      && isEar vertices prevIndex i nextIndex

/-- The triangle `\x7bprev, current, next\x7d` pushed when the ear at index `i` is clipped. -/
def clipTriangle (vertices : List Vec2f) (i : Nat) : Triangle :=
  let n := vertices.length
  ⟨vertices.getD ((i + n - 1) % n) zeroVec, vertices.getD i zeroVec,
    vertices.getD ((i + 1) % n) zeroVec⟩

/-- The `while (vertices.size() > 3)` loop of `triangulate`: returns the
accumulated triangles and the shrunken vertex sequence at loop exit. -/
def clipLoop (vertices : List Vec2f) (triangles : List Triangle) :
    List Triangle × List Vec2f :=
  if 3 < vertices.length then
    match hf : findEarIndex vertices with
    | some i =>
        clipLoop (vertices.eraseIdx i) (triangles ++ [clipTriangle vertices i])
    | none => (triangles, vertices)
  else (triangles, vertices)
termination_by vertices.length
decreasing_by
  have hi : i < vertices.length := by
    have hm := List.mem_of_find?_eq_some hf
    exact List.mem_range.mp hm
  rw [List.length_eraseIdx_of_lt hi]
  omega

/-- The winding normalization at the top of `triangulate`: reverse unless clockwise. -/
def cwNormalize (vertices : List Vec2f) : List Vec2f :=
  if isClockwise vertices then vertices else vertices.reverse

/-- `triangulate(vertices)`: the returned triangle list together with the
final state of the (mutated) input vertex sequence. -/
def triangulate (vertices : List Vec2f) : List Triangle × List Vec2f :=
  let verts := cwNormalize vertices
  let res := clipLoop verts []
  (res.1 ++ [⟨res.2.getD 0 zeroVec, res.2.getD 1 zeroVec, res.2.getD 2 zeroVec⟩], res.2)

/-- The demonstration polygon of `main()`. -/
def demoPolygon : List Vec2f := [⟨-1, -1⟩, ⟨-2, 1⟩, ⟨1, 1⟩, ⟨0, 0⟩, ⟨3, -1⟩]

/-- Fuel-indexed rendering of the `while` loop: `fuel` bounds the number of
iterations still allowed, and `none` reports fuel exhaustion while the loop
would still have iterated.  Used to state that the loop always terminates
within `vertices.length` iterations. -/
def clipLoopF (fuel : Nat) (vertices : List Vec2f) (triangles : List Triangle) :
    Option (List Triangle × List Vec2f) :=
  if 3 < vertices.length then
    match findEarIndex vertices with
    | some i =>
        match fuel with
        | 0 => none
        | fuel' + 1 =>
            clipLoopF fuel' (vertices.eraseIdx i) (triangles ++ [clipTriangle vertices i])
    | none => some (triangles, vertices)
  else some (triangles, vertices)

/-- Where a vertex access happens: the modulo-based neighbour lookups inside
the clipping loop, or the final `vertices[0] / vertices[1] / vertices[2]`
accesses after the loop. -/
inductive AccessSite where
  | neighborLookup
  | finalTriangle
deriving DecidableEq, Repr

/-- Checked `vertices[i]`: `Except.error site` exactly when `i` is out of range. -/
def getE (l : List Vec2f) (i : Nat) (site : AccessSite) : Except AccessSite Vec2f :=
  if h : i < l.length then Except.ok l[i] else Except.error site

/-- The clipping loop with every vertex access of the loop body checked
(tagged `AccessSite.neighborLookup`), in the order the C++ code reads them. -/
def clipLoopE (vertices : List Vec2f) (triangles : List Triangle) :
    Except AccessSite (List Triangle × List Vec2f) :=
  if 3 < vertices.length then
    match hf : findEarIndex vertices with
    | some i =>
        match getE vertices ((i + vertices.length - 1) % vertices.length)
            AccessSite.neighborLookup,
            getE vertices i AccessSite.neighborLookup,
            getE vertices ((i + 1) % vertices.length) AccessSite.neighborLookup with
        | Except.ok prev, Except.ok current, Except.ok next =>
            clipLoopE (vertices.eraseIdx i) (triangles ++ [⟨prev, current, next⟩])
        | Except.error e, _, _ => Except.error e
        | Except.ok _, Except.error e, _ => Except.error e
        | Except.ok _, Except.ok _, Except.error e => Except.error e
    | none => Except.ok (triangles, vertices)
  else Except.ok (triangles, vertices)
termination_by vertices.length
decreasing_by
  have hi : i < vertices.length := by
    have hm := List.mem_of_find?_eq_some hf
    exact List.mem_range.mp hm
  rw [List.length_eraseIdx_of_lt hi]
  omega

/-- The `triangles.push_back(\x7bvertices[0], vertices[1], vertices[2]\x7d)` after the
loop, with the three accesses checked and tagged `AccessSite.finalTriangle`. -/
def finalTriangleE (triangles : List Triangle) (rest : List Vec2f) :
    Except AccessSite (List Triangle × List Vec2f) :=
  match getE rest 0 AccessSite.finalTriangle, getE rest 1 AccessSite.finalTriangle,
      getE rest 2 AccessSite.finalTriangle with
  | Except.ok a, Except.ok b, Except.ok c =>
      Except.ok (triangles ++ [⟨a, b, c⟩], rest)
  | Except.error e, _, _ => Except.error e
  | Except.ok _, Except.error e, _ => Except.error e
  | Except.ok _, Except.ok _, Except.error e => Except.error e

/-- `triangulate` with checked indexing: winding normalization, checked
clipping loop, then the checked final-triangle accesses. -/
def triangulateE (vertices : List Vec2f) :
    Except AccessSite (List Triangle × List Vec2f) :=
  let verts := cwNormalize vertices
  match clipLoopE verts [] with
  | Except.error e => Except.error e
  | Except.ok res => finalTriangleE res.1 res.2

/-! ### Basic lemmas about the loop and the scan -/

theorem findEarIndex_lt_length {vertices : List Vec2f} {i : Nat}
    (hf : findEarIndex vertices = some i) : i < vertices.length := by
  have hm := List.mem_of_find?_eq_some hf
  exact List.mem_range.mp hm

theorem getD_mem {l : List Vec2f} {i : Nat} (h : i < l.length) (d : Vec2f) :
    l.getD i d ∈ l := by
  rw [List.getD_eq_getElem l d h]
  exact List.getElem_mem h

theorem clipTriangle_mem {vertices : List Vec2f} (i : Nat) (h0 : 0 < vertices.length)
    (hi : i < vertices.length) :
    (clipTriangle vertices i).p1 ∈ vertices ∧ (clipTriangle vertices i).p2 ∈ vertices ∧
      (clipTriangle vertices i).p3 ∈ vertices := by
  refine ⟨getD_mem (Nat.mod_lt _ h0) _, getD_mem hi _, getD_mem (Nat.mod_lt _ h0) _⟩

theorem clipLoop_exit {vertices : List Vec2f} (triangles : List Triangle)
    (h : ¬3 < vertices.length) : clipLoop vertices triangles = (triangles, vertices) := by
  rw [clipLoop.eq_def]
  simp [h]

theorem clipLoop_noEar {vertices : List Vec2f} (triangles : List Triangle)
    (h3 : 3 < vertices.length) (hf : findEarIndex vertices = none) :
    clipLoop vertices triangles = (triangles, vertices) := by
  rw [clipLoop.eq_def, if_pos h3]
  split
  · rename_i i heq
    rw [hf] at heq
    exact Option.noConfusion heq
  · rfl

theorem clipLoop_step {vertices : List Vec2f} (triangles : List Triangle)
    (h3 : 3 < vertices.length) {i : Nat} (hf : findEarIndex vertices = some i) :
    clipLoop vertices triangles =
      clipLoop (vertices.eraseIdx i) (triangles ++ [clipTriangle vertices i]) := by
  rw [clipLoop.eq_def, if_pos h3]
  split
  · rename_i j heq
    rw [hf] at heq
    injection heq with h
    subst h
    rfl
  · rename_i heq
    rw [hf] at heq
    exact Option.noConfusion heq

theorem clipLoop_length (vertices : List Vec2f) (triangles : List Triangle) :
    (clipLoop vertices triangles).1.length + (clipLoop vertices triangles).2.length =
      triangles.length + vertices.length := by
  induction vertices, triangles using clipLoop.induct with
  | case1 v acc h3 i hf ih =>
      rw [clipLoop_step acc h3 hf]
      have hi := findEarIndex_lt_length hf
      rw [ih, List.length_append, List.length_eraseIdx_of_lt hi]
      simp only [List.length_cons, List.length_nil]
      omega
  | case2 v acc h3 hf => rw [clipLoop_noEar acc h3 hf]
  | case3 v acc h => rw [clipLoop_exit acc h]

theorem clipLoop_rest_ge (vertices : List Vec2f) (triangles : List Triangle) :
    3 ≤ vertices.length → 3 ≤ (clipLoop vertices triangles).2.length := by
  induction vertices, triangles using clipLoop.induct with
  | case1 v acc h3 i hf ih =>
      intro _
      rw [clipLoop_step acc h3 hf]
      apply ih
      rw [List.length_eraseIdx_of_lt (findEarIndex_lt_length hf)]
      omega
  | case2 v acc h3 hf =>
      intro _
      rw [clipLoop_noEar acc h3 hf]
      exact Nat.le_of_lt h3
  | case3 v acc h =>
      intro hge
      rw [clipLoop_exit acc h]
      exact hge

theorem clipLoop_mem (vertices : List Vec2f) (triangles : List Triangle) :
    (∀ a ∈ (clipLoop vertices triangles).2, a ∈ vertices) ∧
      (∀ t ∈ (clipLoop vertices triangles).1,
        t ∈ triangles ∨ (t.p1 ∈ vertices ∧ t.p2 ∈ vertices ∧ t.p3 ∈ vertices)) := by
  induction vertices, triangles using clipLoop.induct with
  | case1 v acc h3 i hf ih =>
      rw [clipLoop_step acc h3 hf]
      obtain ⟨ih2, ih1⟩ := ih
      have hsub := List.eraseIdx_subset v i
      constructor
      · intro a ha
        exact hsub (ih2 a ha)
      · intro t ht
        rcases ih1 t ht with h | h
        · rcases List.mem_append.mp h with h | h
          · exact Or.inl h
          · right
            have hone : t = clipTriangle v i := by simpa using h
            subst hone
            exact clipTriangle_mem i (by omega) (findEarIndex_lt_length hf)
        · exact Or.inr ⟨hsub h.1, hsub h.2.1, hsub h.2.2⟩
  | case2 v acc h3 hf =>
      rw [clipLoop_noEar acc h3 hf]
      exact ⟨fun a ha => ha, fun t ht => Or.inl ht⟩
  | case3 v acc h =>
      rw [clipLoop_exit acc h]
      exact ⟨fun a ha => ha, fun t ht => Or.inl ht⟩

theorem cwNormalize_length (l : List Vec2f) : (cwNormalize l).length = l.length := by
  unfold cwNormalize
  split <;> simp

theorem cwNormalize_mem {l : List Vec2f} {a : Vec2f} : a ∈ cwNormalize l ↔ a ∈ l := by
  unfold cwNormalize
  split <;> simp

/-! ### Claim theorems: the pure predicates -/

/-- C2: `isPointInsideTriangle` returns `false` iff at least one of the three
cross products `alpha = cross(current - prev, point - prev)`,
`beta = cross(next - current, point - current)`,
`gamma = cross(prev - next, point - next)` is strictly positive; consequently a
point with all three cross products non-positive (e.g. exactly on an edge or
vertex, where the relevant cross product is zero) is reported inside (`true`). -/
theorem isPointInsideTriangle_spec (point prev current next : Vec2f) :
    (isPointInsideTriangle point prev current next = false ↔
      (0 < crossProduct (vsub current prev) (vsub point prev) ∨
        0 < crossProduct (vsub next current) (vsub point current) ∨
        0 < crossProduct (vsub prev next) (vsub point next))) ∧
      (¬(0 < crossProduct (vsub current prev) (vsub point prev) ∨
          0 < crossProduct (vsub next current) (vsub point current) ∨
          0 < crossProduct (vsub prev next) (vsub point next)) →
        isPointInsideTriangle point prev current next = true) := by
  constructor
  · simp only [isPointInsideTriangle]
    split <;> rename_i h <;> simp [h]
  · intro h
    simp only [isPointInsideTriangle]
    split <;> rename_i hc
    · exact absurd hc h
    · rfl

/-- C2 witness: the point `(0, 0)` lies exactly on the edge from `(1, 1)` to
`(-1, -1)` of a clockwise triangle (its `gamma` is zero, none positive), and is
reported inside. -/
theorem isPointInsideTriangle_spec_witness :
    isPointInsideTriangle ⟨0, 0⟩ ⟨-1, -1⟩ ⟨-2, 1⟩ ⟨1, 1⟩ = true :=
  (isPointInsideTriangle_spec ⟨0, 0⟩ ⟨-1, -1⟩ ⟨-2, 1⟩ ⟨1, 1⟩).2
    (by norm_num [EarClipping.crossProduct, vsub])

/-- C3: `isConvex` returns `true` iff
`cross(prev - current, next - current) > 0`; in particular an exactly collinear
triple (cross product zero) is classified as non-convex. -/
theorem isConvex_spec (prev current next : Vec2f) :
    (isConvex prev current next = true ↔
      0 < crossProduct (vsub prev current) (vsub next current)) ∧
      (crossProduct (vsub prev current) (vsub next current) = 0 →
        isConvex prev current next = false) := by
  constructor
  · simp [isConvex]
  · intro h
    simp [isConvex, h]

/-- C3 witness: the collinear triple `(0,0), (1,0), (2,0)` has cross product
zero and is classified non-convex. -/
theorem isConvex_spec_witness : isConvex ⟨0, 0⟩ ⟨1, 0⟩ ⟨2, 0⟩ = false :=
  (isConvex_spec ⟨0, 0⟩ ⟨1, 0⟩ ⟨2, 0⟩).2 (by norm_num [EarClipping.crossProduct, vsub])

/-- C4: for in-range indices, `isEar` returns `false` iff some index `j` of the
sequence, distinct (as an index) from all of `prevIndex`, `currentIndex`,
`nextIndex`, has its vertex contained in the candidate triangle under the
boundary-inclusive containment test; otherwise it returns `true`. -/
theorem isEar_spec (vertices : List Vec2f) (prevIndex currentIndex nextIndex : Nat)
    (hp : prevIndex < vertices.length) (hc : currentIndex < vertices.length)
    (hn : nextIndex < vertices.length) :
    isEar vertices prevIndex currentIndex nextIndex = false ↔
      ∃ j, j < vertices.length ∧ j ≠ prevIndex ∧ j ≠ currentIndex ∧ j ≠ nextIndex ∧
        isPointInsideTriangle (vertices.getD j zeroVec) (vertices.getD prevIndex zeroVec)
          (vertices.getD currentIndex zeroVec) (vertices.getD nextIndex zeroVec) = true := by
  simp only [isEar, List.all_eq_false, List.mem_range]
  constructor
  · rintro ⟨j, hj, hcond⟩
    by_cases hne : j ≠ prevIndex ∧ j ≠ currentIndex ∧ j ≠ nextIndex
    · rw [if_pos hne] at hcond
      refine ⟨j, hj, hne.1, hne.2.1, hne.2.2, ?_⟩
      by_contra hfalse
      rw [Bool.not_eq_true] at hfalse
      rw [hfalse] at hcond
      simp at hcond
    · rw [if_neg hne] at hcond
      simp at hcond
  · rintro ⟨j, hj, h1, h2, h3, hin⟩
    refine ⟨j, hj, ?_⟩
    rw [if_pos ⟨h1, h2, h3⟩, hin]
    simp

/-- C4 witness: in the sequence `[(0,0), (0,4), (4,0), (1,1)]` the candidate
triangle at indices `(0, 1, 2)` contains the vertex at index `3`, so it is not
an ear, and the characterization applies at these concrete inputs. -/
theorem isEar_spec_witness :
    isEar [⟨0, 0⟩, ⟨0, 4⟩, ⟨4, 0⟩, ⟨1, 1⟩] 0 1 2 = false ↔
      ∃ j, j < ([⟨0, 0⟩, ⟨0, 4⟩, ⟨4, 0⟩, ⟨1, 1⟩] : List Vec2f).length ∧ j ≠ 0 ∧ j ≠ 1 ∧
        j ≠ 2 ∧
        isPointInsideTriangle (([⟨0, 0⟩, ⟨0, 4⟩, ⟨4, 0⟩, ⟨1, 1⟩] : List Vec2f).getD j zeroVec)
          (([⟨0, 0⟩, ⟨0, 4⟩, ⟨4, 0⟩, ⟨1, 1⟩] : List Vec2f).getD 0 zeroVec)
          (([⟨0, 0⟩, ⟨0, 4⟩, ⟨4, 0⟩, ⟨1, 1⟩] : List Vec2f).getD 1 zeroVec)
          (([⟨0, 0⟩, ⟨0, 4⟩, ⟨4, 0⟩, ⟨1, 1⟩] : List Vec2f).getD 2 zeroVec) = true :=
  isEar_spec [⟨0, 0⟩, ⟨0, 4⟩, ⟨4, 0⟩, ⟨1, 1⟩] 0 1 2 (by decide) (by decide) (by decide)

/-! ### Concrete evaluations used by witnesses -/

theorem findEarIndex_demo : findEarIndex demoPolygon = some 2 := by
  norm_num [findEarIndex, demoPolygon, List.range_succ, isConvex, isEar,
    isPointInsideTriangle, EarClipping.crossProduct, vsub, List.find?, zeroVec]

theorem findEarIndex_demo4 :
    findEarIndex [(⟨-1, -1⟩ : Vec2f), ⟨-2, 1⟩, ⟨0, 0⟩, ⟨3, -1⟩] = some 1 := by
  norm_num [findEarIndex, List.range_succ, isConvex, isEar,
    isPointInsideTriangle, EarClipping.crossProduct, vsub, List.find?, zeroVec]

theorem cwNormalize_demo : cwNormalize demoPolygon = demoPolygon := by
  unfold cwNormalize
  rw [if_pos]
  norm_num [isClockwise, shoelaceSum, shoelaceTerm, demoPolygon, List.range_succ, zeroVec]

theorem triangulate_demo :
    triangulate demoPolygon =
      ([⟨⟨-2, 1⟩, ⟨1, 1⟩, ⟨0, 0⟩⟩, ⟨⟨-1, -1⟩, ⟨-2, 1⟩, ⟨0, 0⟩⟩,
          ⟨⟨-1, -1⟩, ⟨0, 0⟩, ⟨3, -1⟩⟩],
        [⟨-1, -1⟩, ⟨0, 0⟩, ⟨3, -1⟩]) := by
  have h4 : demoPolygon.eraseIdx 2 = [(⟨-1, -1⟩ : Vec2f), ⟨-2, 1⟩, ⟨0, 0⟩, ⟨3, -1⟩] := by
    simp [demoPolygon]
  have ht1 : clipTriangle demoPolygon 2 = ⟨⟨-2, 1⟩, ⟨1, 1⟩, ⟨0, 0⟩⟩ := by
    norm_num [clipTriangle, demoPolygon, zeroVec]
  have ht2 : clipTriangle [(⟨-1, -1⟩ : Vec2f), ⟨-2, 1⟩, ⟨0, 0⟩, ⟨3, -1⟩] 1 =
      ⟨⟨-1, -1⟩, ⟨-2, 1⟩, ⟨0, 0⟩⟩ := by
    norm_num [clipTriangle, zeroVec]
  simp only [triangulate]
  rw [cwNormalize_demo, clipLoop_step [] (by simp [demoPolygon]) findEarIndex_demo,
    h4, ht1, clipLoop_step _ (by simp) findEarIndex_demo4, ht2,
    List.eraseIdx_cons_succ, List.eraseIdx_cons_zero, clipLoop_exit _ (by simp)]
  simp [zeroVec]

/-- The collinear degenerate polygon used to exercise the no-ear early exit. -/
def collinearQuad : List Vec2f := [⟨0, 0⟩, ⟨1, 0⟩, ⟨2, 0⟩, ⟨3, 0⟩]

theorem cwNormalize_collinearQuad :
    cwNormalize collinearQuad = [⟨3, 0⟩, ⟨2, 0⟩, ⟨1, 0⟩, ⟨0, 0⟩] := by
  unfold cwNormalize
  rw [if_neg]
  · simp [collinearQuad]
  · norm_num [isClockwise, shoelaceSum, shoelaceTerm, collinearQuad, List.range_succ, zeroVec]

theorem findEarIndex_collinearQuad :
    findEarIndex (cwNormalize collinearQuad) = none := by
  rw [cwNormalize_collinearQuad]
  norm_num [findEarIndex, List.range_succ, isConvex, isEar,
    isPointInsideTriangle, EarClipping.crossProduct, vsub, List.find?, zeroVec]

/-! ### Claim theorems: the triangulator -/

/-- C1: if the algorithm fully clips (the loop exits with exactly 3 vertices
remaining, i.e. no no-ear-found early exit occurred), a polygon of `n ≥ 3`
vertices yields exactly `n - 2` triangles. -/
theorem triangulate_count_of_fullClip (l : List Vec2f) (h3 : 3 ≤ l.length)
    (hfull : (triangulate l).2.length = 3) :
    (triangulate l).1.length = l.length - 2 := by
  have hlen := clipLoop_length (cwNormalize l) []
  rw [cwNormalize_length l] at hlen
  have hfull2 : (clipLoop (cwNormalize l) []).2.length = 3 := hfull
  have h1 : (triangulate l).1.length = (clipLoop (cwNormalize l) []).1.length + 1 := by
    simp [triangulate]
  rw [h1]
  simp only [List.length_nil] at hlen
  omega

/-- C1 witness: the 5-vertex demonstration polygon fully clips and yields
`5 - 2 = 3` triangles. -/
theorem triangulate_count_of_fullClip_witness :
    (triangulate demoPolygon).1.length = demoPolygon.length - 2 :=
  triangulate_count_of_fullClip demoPolygon (by simp [demoPolygon])
    (by rw [triangulate_demo]; rfl)

/-- C6: if a scan of the current vertex sequence finds no convex ear while
more than 3 vertices remain, the loop stops with its accumulated triangles and
the sequence untouched (no error of any kind), and `triangulate` still appends
exactly one triangle built from the first three leftover vertices, silently
discarding the rest. -/
theorem triangulate_earlyExit (v : List Vec2f) (acc : List Triangle)
    (h3 : 3 < v.length) (hne : findEarIndex v = none) :
    clipLoop v acc = (acc, v) ∧
      ∀ l, cwNormalize l = v →
        triangulate l =
          ([⟨v.getD 0 zeroVec, v.getD 1 zeroVec, v.getD 2 zeroVec⟩], v) := by
  refine ⟨clipLoop_noEar acc h3 hne, fun l hl => ?_⟩
  simp only [triangulate]
  rw [hl, clipLoop_noEar [] h3 hne]
  simp

/-- C6 witness: the collinear quadrilateral has no convex vertex after winding
normalization, so the first scan already fails; the result is one (degenerate)
triangle from the first three leftover vertices, and the fourth is discarded. -/
theorem triangulate_earlyExit_witness :
    clipLoop (cwNormalize collinearQuad) [] = ([], cwNormalize collinearQuad) ∧
      triangulate collinearQuad =
        ([⟨(cwNormalize collinearQuad).getD 0 zeroVec,
            (cwNormalize collinearQuad).getD 1 zeroVec,
            (cwNormalize collinearQuad).getD 2 zeroVec⟩], cwNormalize collinearQuad) := by
  have h := triangulate_earlyExit (cwNormalize collinearQuad) []
    (by rw [cwNormalize_length]; simp [collinearQuad]) findEarIndex_collinearQuad
  exact ⟨h.1, h.2 collinearQuad rfl⟩

/-- C9: every point of every output triangle is a vertex of the input polygon
(equality of coordinate pairs); winding reversal and ear removal never invent
coordinates.  Inputs with fewer than 3 vertices are excluded: there the C++
code reads out of range (see the `triangulateE` analysis). -/
theorem triangulate_vertex_subset (l : List Vec2f) (h3 : 3 ≤ l.length) :
    ∀ t ∈ (triangulate l).1, t.p1 ∈ l ∧ t.p2 ∈ l ∧ t.p3 ∈ l := by
  intro t ht
  have hmem := clipLoop_mem (cwNormalize l) []
  have hge : 3 ≤ (clipLoop (cwNormalize l) []).2.length := by
    apply clipLoop_rest_ge
    rw [cwNormalize_length]
    exact h3
  simp only [triangulate, List.mem_append, List.mem_singleton] at ht
  rcases ht with ht | ht
  · rcases hmem.2 t ht with h | h
    · simp at h
    · exact ⟨cwNormalize_mem.mp h.1, cwNormalize_mem.mp h.2.1, cwNormalize_mem.mp h.2.2⟩
  · subst ht
    refine ⟨?_, ?_, ?_⟩ <;> exact
      cwNormalize_mem.mp (hmem.1 _ (getD_mem (by omega) _))

/-- C9 witness: the first output triangle of the demonstration polygon has all
three of its points among the five input vertices. -/
theorem triangulate_vertex_subset_witness :
    (Triangle.mk ⟨-2, 1⟩ ⟨1, 1⟩ ⟨0, 0⟩).p1 ∈ demoPolygon ∧
      (Triangle.mk ⟨-2, 1⟩ ⟨1, 1⟩ ⟨0, 0⟩).p2 ∈ demoPolygon ∧
      (Triangle.mk ⟨-2, 1⟩ ⟨1, 1⟩ ⟨0, 0⟩).p3 ∈ demoPolygon :=
  triangulate_vertex_subset demoPolygon (by simp [demoPolygon])
    ⟨⟨-2, 1⟩, ⟨1, 1⟩, ⟨0, 0⟩⟩ (by rw [triangulate_demo]; simp)

/-- C10: for `n ≥ 3`, whichever way the loop exits, the number of returned
triangles is `n` minus the number of vertices left in the mutated sequence,
plus one (the single triangle appended after the loop); in particular the
result is never empty. -/
theorem triangulate_count_general (l : List Vec2f) (h3 : 3 ≤ l.length) :
    (triangulate l).1.length = l.length - (triangulate l).2.length + 1 ∧
      (triangulate l).1 ≠ [] := by
  have hlen := clipLoop_length (cwNormalize l) []
  rw [cwNormalize_length l] at hlen
  simp only [List.length_nil] at hlen
  have h1 : (triangulate l).1.length = (clipLoop (cwNormalize l) []).1.length + 1 := by
    simp [triangulate]
  have h2 : (triangulate l).2 = (clipLoop (cwNormalize l) []).2 := rfl
  constructor
  · rw [h1, h2]
    omega
  · simp [triangulate]

/-- C10 witness: the demonstration polygon returns `5 - 3 + 1 = 3` triangles
and a nonempty result. -/
theorem triangulate_count_general_witness :
    (triangulate demoPolygon).1.length =
        demoPolygon.length - (triangulate demoPolygon).2.length + 1 ∧
      (triangulate demoPolygon).1 ≠ [] :=
  triangulate_count_general demoPolygon (by simp [demoPolygon])

/-! ### Termination of the clipping loop (fuel-indexed) -/

/-- C8: the clipping loop terminates on every input: `vertices.length` units of
fuel always suffice (the fuel-indexed loop never exhausts its fuel and agrees
with the loop), because each iteration that finds an ear removes exactly one
vertex and every other scan outcome exits the loop. -/
theorem clipLoop_terminates (v : List Vec2f) (acc : List Triangle) (fuel : Nat)
    (hfuel : v.length ≤ fuel) :
    clipLoopF fuel v acc = some (clipLoop v acc) ∧
      ∀ i, findEarIndex v = some i → (v.eraseIdx i).length + 1 = v.length := by
  constructor
  · induction fuel generalizing v acc with
    | zero =>
        have hv : ¬3 < v.length := by omega
        rw [clipLoop_exit acc hv]
        unfold clipLoopF
        rw [if_neg hv]
    | succ fuel ih =>
        by_cases h3 : 3 < v.length
        · cases hf : findEarIndex v with
          | none =>
              rw [clipLoop_noEar acc h3 hf]
              unfold clipLoopF
              rw [if_pos h3, hf]
          | some i =>
              rw [clipLoop_step acc h3 hf]
              unfold clipLoopF
              rw [if_pos h3, hf]
              apply ih
              rw [List.length_eraseIdx_of_lt (findEarIndex_lt_length hf)]
              omega
        · rw [clipLoop_exit acc h3]
          unfold clipLoopF
          rw [if_neg h3]
  · intro i hf
    rw [List.length_eraseIdx_of_lt (findEarIndex_lt_length hf)]
    have := findEarIndex_lt_length hf
    omega

/-- C8 witness: on the 5-vertex demonstration polygon 5 units of fuel suffice,
and the ear found at index 2 removes exactly one vertex. -/
theorem clipLoop_terminates_witness :
    clipLoopF 5 demoPolygon [] = some (clipLoop demoPolygon []) ∧
      (demoPolygon.eraseIdx 2).length + 1 = demoPolygon.length :=
  ⟨(clipLoop_terminates demoPolygon [] 5 (by simp [demoPolygon])).1,
    (clipLoop_terminates demoPolygon [] 5 (by simp [demoPolygon])).2 2 findEarIndex_demo⟩

/-! ### The checked-indexing embedding -/

theorem clipLoopE_exit (v : List Vec2f) (acc : List Triangle)
    (h : ¬3 < v.length) : clipLoopE v acc = Except.ok (acc, v) := by
  rw [clipLoopE.eq_def, if_neg h]

theorem clipLoopE_noEar (v : List Vec2f) (acc : List Triangle)
    (h3 : 3 < v.length) (hf : findEarIndex v = none) :
    clipLoopE v acc = Except.ok (acc, v) := by
  rw [clipLoopE.eq_def, if_pos h3]
  split
  · rename_i i heq
    rw [hf] at heq
    exact Option.noConfusion heq
  · rfl

theorem getE_ok {v : List Vec2f} {i : Nat} (hlt : i < v.length) (site : AccessSite) :
    getE v i site = Except.ok (v.getD i zeroVec) := by
  rw [getE, dif_pos hlt, List.getD_eq_getElem _ _ hlt]

theorem clipLoopE_step (v : List Vec2f) (acc : List Triangle)
    (h3 : 3 < v.length) {i : Nat} (hf : findEarIndex v = some i) :
    clipLoopE v acc = clipLoopE (v.eraseIdx i) (acc ++ [clipTriangle v i]) := by
  have hi : i < v.length := findEarIndex_lt_length hf
  have hn0 : 0 < v.length := by omega
  rw [clipLoopE.eq_def, if_pos h3]
  split
  · rename_i j heq
    rw [hf] at heq
    injection heq with h
    subst h
    rw [getE_ok (Nat.mod_lt _ hn0), getE_ok hi, getE_ok (Nat.mod_lt _ hn0)]
    rfl
  · rename_i heq
    rw [hf] at heq
    exact Option.noConfusion heq

/-- The checked clipping loop never fails: it always agrees with the total
loop, in particular no modulo-based neighbour lookup is ever out of range. -/
theorem clipLoopE_eq_ok (v : List Vec2f) (acc : List Triangle) :
    clipLoopE v acc = Except.ok (clipLoop v acc) := by
  induction v, acc using clipLoop.induct with
  | case1 v acc h3 i hf ih =>
      rw [clipLoopE_step v acc h3 hf, clipLoop_step acc h3 hf]
      exact ih
  | case2 v acc h3 hf =>
      rw [clipLoopE_noEar v acc h3 hf, clipLoop_noEar acc h3 hf]
  | case3 v acc h =>
      rw [clipLoopE_exit v acc h, clipLoop_exit acc h]

theorem finalTriangleE_short (tris : List Triangle) (rest : List Vec2f)
    (h : rest.length < 3) :
    finalTriangleE tris rest = Except.error AccessSite.finalTriangle := by
  rcases rest with _ | ⟨a, rest⟩
  · rfl
  rcases rest with _ | ⟨b, rest⟩
  · rfl
  rcases rest with _ | ⟨c, rest⟩
  · rfl
  simp only [List.length_cons] at h
  omega

theorem finalTriangleE_ok (tris : List Triangle) (rest : List Vec2f)
    (h : 3 ≤ rest.length) :
    finalTriangleE tris rest =
      Except.ok (tris ++ [⟨rest.getD 0 zeroVec, rest.getD 1 zeroVec, rest.getD 2 zeroVec⟩],
        rest) := by
  rw [finalTriangleE, getE_ok (by omega), getE_ok (by omega), getE_ok (by omega)]

theorem triangulateE_as_final (l : List Vec2f) :
    triangulateE l =
      finalTriangleE (clipLoop (cwNormalize l) []).1 (clipLoop (cwNormalize l) []).2 := by
  simp only [triangulateE]
  rw [clipLoopE_eq_ok]

/-- C7 (amended): with every vertex access checked, `triangulate` on an input
of fewer than 3 vertices fails exactly at the final-triangle accesses
`vertices[0] / vertices[1] / vertices[2]` after the loop; for inputs of at
least 3 vertices every access is in range and the checked run returns the
plain result; and on no input whatsoever does a modulo-based neighbour lookup
go out of range. -/
theorem triangulateE_spec (l : List Vec2f) :
    (l.length < 3 → triangulateE l = Except.error AccessSite.finalTriangle) ∧
      (3 ≤ l.length → triangulateE l = Except.ok (triangulate l)) ∧
      triangulateE l ≠ Except.error AccessSite.neighborLookup := by
  have hcw := cwNormalize_length l
  refine ⟨fun hlt => ?_, fun hge => ?_, ?_⟩
  · rw [triangulateE_as_final, clipLoop_exit [] (by omega)]
    exact finalTriangleE_short _ _ (by simpa [hcw] using hlt)
  · rw [triangulateE_as_final,
      finalTriangleE_ok _ _ (clipLoop_rest_ge _ _ (by omega))]
    rfl
  · rw [triangulateE_as_final]
    by_cases h : 3 ≤ (clipLoop (cwNormalize l) []).2.length
    · rw [finalTriangleE_ok _ _ h]
      simp
    · rw [finalTriangleE_short _ _ (by omega)]
      simp

/-- C7 witness: the one-vertex input has fewer than 3 vertices, and the
checked run fails at the final-triangle access. -/
theorem triangulateE_spec_witness :
    triangulateE [⟨0, 0⟩] = Except.error AccessSite.finalTriangle :=
  (triangulateE_spec [⟨0, 0⟩]).1 (by simp)

/-- C7 counterexample: on the concrete empty input the out-of-range access is
the final-triangle read `vertices[0]` after the loop, not one of the
modulo-based neighbour lookups (which are never executed for inputs with fewer
than 3 vertices): the claim's localisation of the failing access is wrong. -/
theorem triangulateE_counterexample :
    triangulateE [] = Except.error AccessSite.finalTriangle ∧
      AccessSite.finalTriangle ≠ AccessSite.neighborLookup := by
  have hcw : cwNormalize [] = [] := by
    unfold cwNormalize
    split <;> rfl
  constructor
  · simp only [triangulateE]
    rw [hcw, clipLoopE_exit [] [] (by simp)]
    rfl
  · simp

/-! ### Orientation and reversal -/

theorem sum_map_range (f : Nat → ℚ) (n : Nat) :
    ((List.range n).map f).sum = ∑ i ∈ Finset.range n, f i := by
  induction n with
  | zero => simp
  | succ n ih =>
      rw [List.range_succ, List.map_append, List.sum_append, Finset.sum_range_succ, ih]
      simp

theorem getD_reverse {l : List Vec2f} {i : Nat} (h : i < l.length) :
    l.reverse.getD i zeroVec = l.getD (l.length - 1 - i) zeroVec := by
  have h1 : i < l.reverse.length := by simpa using h
  have h2 : l.length - 1 - i < l.length := by omega
  rw [List.getD_eq_getElem _ _ h1, List.getD_eq_getElem _ _ h2, List.getElem_reverse]

theorem mod_cycle_right (n a : Nat) (h : a < n) : ((a + n - 1) % n + 1) % n = a := by
  have e1 : a + n - 1 = a + (n - 1) := by omega
  rw [e1, Nat.mod_add_mod]
  have e2 : a + (n - 1) + 1 = a + n := by omega
  rw [e2, Nat.add_mod_right, Nat.mod_eq_of_lt h]

theorem mod_cycle_left (n a : Nat) (h : a < n) : ((a + 1) % n + n - 1) % n = a := by
  have e1 : (a + 1) % n + n - 1 = (a + 1) % n + (n - 1) := by omega
  rw [e1, Nat.mod_add_mod]
  have e2 : a + 1 + (n - 1) = a + n := by omega
  rw [e2, Nat.add_mod_right, Nat.mod_eq_of_lt h]

theorem shoelaceTerm_reflect (l : List Vec2f) (i : Nat) (h : i < l.length) :
    shoelaceTerm l.reverse (l.length - 1 - i) =
      -shoelaceTerm l ((i + l.length - 1) % l.length) := by
  have hn0 : 0 < l.length := by omega
  have hj : l.length - 1 - i < l.length := by omega
  have key1 : l.length - 1 - ((l.length - 1 - i + 1) % l.length) =
      (i + l.length - 1) % l.length := by
    rcases Nat.eq_zero_or_pos i with hi0 | hip
    · subst hi0
      have e1 : l.length - 1 - 0 + 1 = l.length := by omega
      rw [e1, Nat.mod_self, Nat.mod_eq_of_lt (by omega)]
      omega
    · have e1 : l.length - 1 - i + 1 = l.length - i := by omega
      have e2 : (l.length - i) % l.length = l.length - i := Nat.mod_eq_of_lt (by omega)
      have e3 : i + l.length - 1 = (i - 1) + l.length := by omega
      rw [e1, e2, e3, Nat.add_mod_right, Nat.mod_eq_of_lt (by omega)]
      omega
  simp only [shoelaceTerm, List.length_reverse]
  rw [getD_reverse hj, getD_reverse (Nat.mod_lt _ hn0), key1, mod_cycle_right _ _ h]
  have e5 : l.length - 1 - (l.length - 1 - i) = i := by omega
  rw [e5]
  ring

theorem shoelaceSum_reverse (l : List Vec2f) :
    shoelaceSum l.reverse = -shoelaceSum l := by
  rcases Nat.eq_zero_or_pos l.length with h0 | hn0
  · have hl : l = [] := List.length_eq_zero.mp h0
    subst hl
    simp [shoelaceSum]
  · unfold shoelaceSum
    rw [List.length_reverse, sum_map_range, sum_map_range,
      ← Finset.sum_range_reflect (fun i => shoelaceTerm l.reverse i) l.length]
    have hcongr : ∀ i ∈ Finset.range l.length,
        shoelaceTerm l.reverse (l.length - 1 - i) =
          -shoelaceTerm l ((i + l.length - 1) % l.length) := fun i hi =>
      shoelaceTerm_reflect l i (Finset.mem_range.mp hi)
    rw [Finset.sum_congr rfl hcongr, Finset.sum_neg_distrib]
    congr 1
    refine Finset.sum_nbij' (fun a => (a + l.length - 1) % l.length)
      (fun a => (a + 1) % l.length) ?_ ?_ ?_ ?_ ?_
    · intro a ha
      exact Finset.mem_range.mpr (Nat.mod_lt _ hn0)
    · intro a ha
      exact Finset.mem_range.mpr (Nat.mod_lt _ hn0)
    · intro a ha
      exact mod_cycle_right _ _ (Finset.mem_range.mp ha)
    · intro a ha
      exact mod_cycle_left _ _ (Finset.mem_range.mp ha)
    · intro a ha
      rfl

/-- C5: `isClockwise` on a polygon and on its reversed vertex sequence return
opposite booleans, except in the degenerate case of shoelace sum exactly zero,
where both return `false`. -/
theorem isClockwise_reverse_spec (l : List Vec2f) :
    (shoelaceSum l = 0 → isClockwise l = false ∧ isClockwise l.reverse = false) ∧
      (shoelaceSum l ≠ 0 → isClockwise l.reverse = !isClockwise l) := by
  have hrev := shoelaceSum_reverse l
  constructor
  · intro h0
    simp only [isClockwise]
    rw [hrev, h0]
    norm_num
  · intro hne
    simp only [isClockwise]
    rw [hrev]
    rcases lt_trichotomy (shoelaceSum l) 0 with h | h | h
    · rw [decide_eq_true (neg_pos.mpr h), decide_eq_false (not_lt.mpr (le_of_lt h))]
      rfl
    · exact absurd h hne
    · rw [decide_eq_false (not_lt.mpr (le_of_lt (neg_neg_of_pos h))),
        decide_eq_true h]
      rfl

/-- C5 witness: the counter-clockwise square has nonzero shoelace sum, so
`isClockwise` flips under reversal of the vertex sequence. -/
theorem isClockwise_reverse_spec_witness :
    isClockwise ([⟨0, 0⟩, ⟨2, 0⟩, ⟨2, 2⟩, ⟨0, 2⟩] : List Vec2f).reverse =
      !isClockwise [⟨0, 0⟩, ⟨2, 0⟩, ⟨2, 2⟩, ⟨0, 2⟩] :=
  (isClockwise_reverse_spec _).2
    (by norm_num [shoelaceSum, shoelaceTerm, List.range_succ, zeroVec])

end EarClipping
